import Mathlib

/-!
Verification of the data_cleaner_app repository core: the CSV ingestion
resolver (`app.py`, `utils/simple_cleaner.py`, `utils/csv_fixer.py`) and the
cleaning engine (`utils/simple_cleaner.py`, `utils/data_cleaner.py`).

Files are modelled at text level: a file is its list of decoded text lines
(each line a `List Char`, without the trailing newline).  Calls into the
pandas library (`pd.read_csv`, `pd.DataFrame`) are modelled as explicit
parameters (parse oracles) or as checked constructors, since pandas is an
external dependency; everything implemented in the repository itself is
translated directly.
-/

namespace DataCleanerApp

/-! ### Character classes and Python string primitives

`isSpaceChar` models Python's `str.strip` / regex `\s` class;
`isWordChar` models the regex `\w` class; `pyLowerChar` models `str.lower`.
Python's classes and case mappings are Unicode-wide; they are modelled here
exactly on the fragment this development evaluates them on: the ASCII range
together with U+0130 (Latin capital letter I with dot above, a letter and
hence `\w`, whose full-case lowering produces TWO characters) and U+0307
(combining dot above, category Mn, which is neither `\w` nor `\s` and is
its own lowercase).  `str.lower` is therefore a string-to-string map, not a
character map: each character lowers to a list of characters. -/

/-- Whitespace characters recognised by Python's `str.strip` and regex `\s`
on the modelled fragment (U+0130 and U+0307 are not whitespace). -/
def isSpaceChar (c : Char) : Bool :=
  decide (c.toNat = 32) || decide (c.toNat = 9) || decide (c.toNat = 10) ||
  decide (c.toNat = 13) || decide (c.toNat = 11) || decide (c.toNat = 12)

/-- Word characters of the regex class `\w` on the modelled fragment: ASCII
digits, uppercase letters, lowercase letters, underscore, and the letter
U+0130; the combining mark U+0307 is not alphanumeric in Python, hence not
`\w`. -/
def isWordChar (c : Char) : Bool :=
  (decide (48 ≤ c.toNat) && decide (c.toNat ≤ 57)) ||
  (decide (65 ≤ c.toNat) && decide (c.toNat ≤ 90)) ||
  (decide (97 ≤ c.toNat) && decide (c.toNat ≤ 122)) ||
  decide (c.toNat = 95) || decide (c.toNat = 304)

/-- Python `str.lower` on one character of the modelled fragment.  ASCII
uppercase letters shift down by 32; U+0130 takes CPython's full case
mapping `'İ'.lower() == 'i' + '̇'` (two characters); everything else
in the fragment is its own lowercase. -/
def pyLowerChar (c : Char) : List Char :=
  if 65 ≤ c.toNat ∧ c.toNat ≤ 90 then [Char.ofNat (c.toNat + 32)]
  else if c.toNat = 304 then [Char.ofNat 105, Char.ofNat 775]
  else [c]

/-- Python `str.strip`: drop whitespace from both ends. -/
def pyStrip (l : List Char) : List Char :=
  ((l.dropWhile isSpaceChar).reverse.dropWhile isSpaceChar).reverse

/-! ### Column-name normalization, from `SimpleDataCleaner._clean_column_name`
(`utils/simple_cleaner.py` lines 224-244): strip; `re.sub(r'[^\w\s]', '', col)`;
`re.sub(r'\s+', '_', col)`; lowercase; empty result becomes `'column'`. -/

/-- Embeds `re.sub(r'[^\w\s]', '', col)`: keep only word or whitespace
characters. -/
def removeNonWordSpace (l : List Char) : List Char :=
  l.filter (fun c => isWordChar c || isSpaceChar c)

/-- Embeds `re.sub(r'\s+', '_', col)`: each maximal run of whitespace
becomes a single underscore (emitted at the last character of the run). -/
def collapseWS : List Char → List Char
  | [] => []
  | [c] => if isSpaceChar c then ['_'] else [c]
  | c :: c2 :: cs =>
    if isSpaceChar c then
      (if isSpaceChar c2 then collapseWS (c2 :: cs) else '_' :: collapseWS (c2 :: cs))
    else c :: collapseWS (c2 :: cs)

/-- The four normalization passes of `_clean_column_name` in source order:
strip, remove characters outside `\w\s`, collapse whitespace runs to `_`,
lowercase (character-by-character, each character lowering to a list). -/
def normalizeChars (l : List Char) : List Char :=
  (collapseWS (removeNonWordSpace (pyStrip l))).flatMap pyLowerChar

/-- Embeds `SimpleDataCleaner._clean_column_name` on the string path
(the `pd.isna` branch returns the constant `'unknown_column'` and is
modelled at the call site).  An empty normalization result becomes the
literal name `'column'`. -/
def cleanColumnName (s : String) : String :=
  let r := normalizeChars s.data
  if r.isEmpty then "column" else String.mk r

/-! ### Delimited-text splitting

`splitOn` models Python `str.split(d)` (plain, quote-blind splitting);
`joinWith` models `d.join(parts)`; `csvFields` models the quote-aware
tokenization of `csv.reader` / `pd.read_csv` on a single line: a quote
character toggles quoted mode and is dropped, and the delimiter separates
fields only outside quoted mode. -/

/-- Python `str.split(d)`: `splitOn d []` is `[[]]`, mirroring
`''.split(d) == ['']`. -/
def splitOn (d : Char) : List Char → List (List Char)
  | [] => [[]]
  | c :: cs =>
    if c = d then [] :: splitOn d cs
    else
      match splitOn d cs with
      | [] => [[c]]
      | f :: r => (c :: f) :: r

/-- Python `d.join(parts)`. -/
def joinWith (d : Char) : List (List Char) → List Char
  | [] => []
  | [p] => p
  | p :: ps => p ++ d :: joinWith d ps

/-- Quote-aware splitting of one line, the per-line behaviour of
`csv.reader(..., delimiter=d)` (and of the pandas parser) on the simple
quoting discipline used in this repository: `"` toggles quoted mode and is
consumed, `d` ends a field only outside quotes. -/
def csvSplitQ (d : Char) : List Char → Bool → List (List Char)
  | [], _ => [[]]
  | c :: cs, inQ =>
    if c = '"' then csvSplitQ d cs (!inQ)
    else if c = d ∧ inQ = false then [] :: csvSplitQ d cs false
    else
      match csvSplitQ d cs inQ with
      | [] => [[c]]
      | f :: r => (c :: f) :: r

/-- Fields of one line under quote-aware splitting. -/
def csvFields (d : Char) (l : List Char) : List (List Char) := csvSplitQ d l false

/-! ### The RawTable data model -/

/-- The parsing result: ordered column names plus ordered rows of string
cells (a pandas DataFrame viewed as a table of strings). -/
structure RawTable where
  columns : List (List Char)
  rows : List (List (List Char))
deriving DecidableEq

/-- Pandas `df.empty`: no rows or no columns. -/
def dfEmptyB (t : RawTable) : Bool := t.rows.isEmpty || t.columns.isEmpty

/-- The `pd.DataFrame()` produced when every strategy fails. -/
def emptyRawTable : RawTable := ⟨[], []⟩

/-- The width invariant: every row has exactly `len(columns)` cells. -/
def RawTable.Rectangular (t : RawTable) : Prop :=
  ∀ r ∈ t.rows, r.length = t.columns.length

/-- Embeds `pd.DataFrame(rows, columns=cols)`: pandas raises (here: `none`)
when some row's cell count differs from the column count. -/
def pdDataFrame (cols : List (List Char)) (rs : List (List (List Char))) :
    Option RawTable :=
  if rs.all (fun r => r.length == cols.length) then some ⟨cols, rs⟩ else none

/-! ### Delimiter detection

All three detection sites (`app.manual_csv_parse`,
`app.text_based_csv_parse`, `SimpleDataCleaner._try_csv_module`) run
`max({d: line.count(d) for d in [',', ';', '\t', '|']}, key=counts.get)`:
Python's `max` returns the first key (in insertion order) attaining the
maximum count. -/

/-- The candidate delimiters, in the fixed source order. -/
def candidateDelims : List Char := [',', ';', '\t', '|']

/-- Python `max(keys, key=f)`: fold keeping the current best, replacing it
only on a strictly greater value, so the first maximum wins. -/
def pyMaxBy (f : Char → Nat) (x : Char) (xs : List Char) : Char :=
  xs.foldl (fun b y => if f b < f y then y else b) x

/-- Delimiter selection from a single line. -/
def selectDelimiter (l : List Char) : Char :=
  pyMaxBy (fun d => l.count d) ',' [';', '\t', '|']

/-! ### Manual-tokenization tiers -/

/-- Maximum cell count over the parsed rows (`max(len(row) for row in rows)`). -/
def maxRowLen (rows : List (List (List Char))) : Nat :=
  (rows.map List.length).foldr max 0

/-- Pad one row to width `w` with empty-string cells. -/
def padRow (w : Nat) (r : List (List Char)) : List (List Char) :=
  r ++ List.replicate (w - r.length) []

/-- The pad-and-build block of `app.manual_csv_parse` (lines 160-174): with
at least two parsed rows, pad every row to the maximum width and build the
DataFrame from the first row as header; otherwise `pd.DataFrame()`. -/
def padTable (rows : List (List (List Char))) : RawTable :=
  if 1 < rows.length then
    { columns := (rows.map (padRow (maxRowLen rows))).headD [],
      rows := (rows.map (padRow (maxRowLen rows))).tail }
  else emptyRawTable

/-- Embeds `app.manual_csv_parse` (lines 122-174) at text level: detect the
delimiter on the (stripped) first line, tokenize every line quote-aware with
it (`csv.reader`); an empty file leaves no rows and the last-resort plain
comma split runs over the same (absent) lines.  Then pad all rows to the
maximum width and take the first row as the header (`rows[0]`), or return
`pd.DataFrame()` when there are not at least two rows. -/
def manualCsvParse (lines : List (List Char)) : RawTable :=
  let rows :=
    if lines.isEmpty then lines.map (fun l => splitOn ',' (pyStrip l))
    else lines.map (fun l => csvFields (selectDelimiter (pyStrip (lines.headD []))) l)
  padTable rows

/-- Embeds `SimpleDataCleaner._try_manual_parse` (lines 107-150): strip each
line, drop blank lines, split every line on commas with stripped cells, pad
all rows to the maximum width; first row becomes the columns, the rest the
rows (a single row yields a header-only DataFrame). -/
def tryManualParse (lines : List (List Char)) : Option RawTable :=
  if lines.isEmpty then none
  else
    let cleaned := (lines.map pyStrip).filter (fun l => !l.isEmpty)
    if cleaned.isEmpty then none
    else
      let rows := cleaned.map (fun l => (splitOn ',' l).map pyStrip)
      let w := maxRowLen rows
      let padded := rows.map (padRow w)
      if 1 < padded.length then some { columns := padded.headD [], rows := padded.tail }
      else some { columns := padded.headD [], rows := [] }

/-- Embeds `SimpleDataCleaner._try_csv_module` (lines 76-105): detect the
delimiter on the first line, tokenize every line with `csv.reader`; accept
only when there are at least two rows (header plus data); a ragged
`pd.DataFrame` construction raises and the strategy yields nothing. -/
def tryCsvModule (lines : List (List Char)) : Option RawTable :=
  match lines with
  | [] => none
  | first :: _ =>
    let delim := selectDelimiter first
    let rows := lines.map (fun l => csvFields delim l)
    if 1 < rows.length then pdDataFrame (rows.headD []) rows.tail else none

/-! ### Content cleaning (`app.clean_csv_content` lines 242-264,
`utils/csv_fixer.fix_csv_issues` lines 30-56) -/

/-- One line of the delimiter-count reconciliation: with `expected` commas in
the header, a line with fewer commas is padded with commas, a line with more
has its fields past the expected count joined into one quoted trailing
field. -/
def fixLine (expected : Nat) (l : List Char) : List Char :=
  let c := l.count ','
  if c < expected then l ++ List.replicate (expected - c) ','
  else if expected < c then
    let parts := splitOn ',' l
    if expected + 1 < parts.length then
      joinWith ',' (parts.take expected) ++ [','] ++ ['"'] ++
        joinWith ',' (parts.drop expected) ++ ['"']
    else l
  else l

/-- The `# Ensure consistent columns` block of `clean_csv_content`: drop
blank lines, then reconcile every data line against the header's comma
count.  (The upstream character-level fixes — line endings, BOM, the
mojibake replacement table — operate below the line granularity modelled
here.) -/
def ensureConsistentColumns (lines : List (List Char)) : List (List Char) :=
  match lines.filter (fun l => !(pyStrip l).isEmpty) with
  | [] => []
  | header :: rest => header :: rest.map (fixLine (header.count ','))

/-- The manual branch of `text_based_csv_parse` (lines 190-206): the cleaned
content is re-split (`content.strip().split('\n')` gives `['']` on empty
content), the delimiter is detected on the first line, and each line is
split on it with stripped cells. -/
def textManualRows (cl : List (List Char)) : List (List (List Char)) :=
  (if cl.isEmpty then [[]] else cl).map
    (fun l =>
      (splitOn (selectDelimiter ((if cl.isEmpty then [[]] else cl).headD [])) l).map
        pyStrip)

/-- The fallback result of `text_based_csv_parse` when the pandas re-parse
fails: build a DataFrame from the manually split rows when there are at
least two; a ragged `pd.DataFrame` construction raises and the enclosing
handler returns `pd.DataFrame()`. -/
def textManualFallback (cl : List (List Char)) : RawTable :=
  if 1 < (textManualRows cl).length then
    match pdDataFrame ((textManualRows cl).headD []) (textManualRows cl).tail with
    | some df => df
    | none => emptyRawTable
  else emptyRawTable

/-- Embeds `app.text_based_csv_parse` (lines 176-210): clean the content,
try the pandas parse on it (oracle `pText`), and on failure fall back to the
manual split on the detected delimiter. -/
def textBasedCsvParse (pText : List (List Char) → Option RawTable)
    (lines : List (List Char)) : RawTable :=
  match pText (ensureConsistentColumns lines) with
  | some df => df
  | none => textManualFallback (ensureConsistentColumns lines)

/-! ### The strategy cascade -/

/-- The fixed ordered fallback encodings of `read_csv_with_fallbacks`
(`app.py` line 82). -/
def fallbackEncodings : List String :=
  ["utf-8", "latin1", "cp1252", "iso-8859-1", "utf-16", "ascii"]

/-- Embeds `app.detect_file_encoding` (lines 59-71): chardet's answer on a
sample of up to 100,000 bytes is accepted only above confidence 0.7,
otherwise UTF-8. -/
def detectFileEncoding (detected : String) (confidence : ℚ) : String :=
  if 7/10 < confidence then detected else "utf-8"

/-- The sample size of `detect_file_encoding` (`f.read(100000)`). -/
def encodingSampleSize : Nat := 100000

/-- Acceptance test of strategy 1: `not df.empty and len(df.columns) > 1`. -/
def acceptStrict (t : RawTable) : Bool :=
  !dfEmptyB t && decide (1 < t.columns.length)

/-- Acceptance test of strategy 2: `not df.empty`. -/
def acceptSkip (t : RawTable) : Bool := !dfEmptyB t

/-- One encoding sweep: try `parse` on each encoding in order, returning the
first accepted result (a raised exception is `none`). -/
def firstAccepted (parse : String → Option RawTable) (ok : RawTable → Bool) :
    List String → Option RawTable
  | [] => none
  | e :: es =>
    match parse e with
    | some df => if ok df then some df else firstAccepted parse ok es
    | none => firstAccepted parse ok es

/-- The error type the specification names; the source never defines or
raises it. -/
inductive UnreadableFileError where
  | unreadable
deriving DecidableEq

/-- Embeds `app.read_csv_with_fallbacks` (lines 73-120).  `p1` and `p2` are
the pandas parse oracles of strategies 1 and 2 (strict parse, and parse with
`on_bad_lines='skip'`), indexed by encoding name; `pText` is the pandas
parse oracle over cleaned text used inside `text_based_csv_parse`.  The
codomain is `Except UnreadableFileError RawTable` so that the specification's
claimed error can be stated; the code itself returns on every path. -/
def readCsvWithFallbacks (p1 p2 : String → Option RawTable)
    (pText : List (List Char) → Option RawTable) (lines : List (List Char)) :
    Except UnreadableFileError RawTable :=
  match firstAccepted p1 acceptStrict fallbackEncodings with
  | some df => .ok df
  | none =>
    match firstAccepted p2 acceptSkip fallbackEncodings with
    | some df => .ok df
    | none =>
      if !dfEmptyB (manualCsvParse lines) then .ok (manualCsvParse lines)
      else if !dfEmptyB (textBasedCsvParse pText lines) then
        .ok (textBasedCsvParse pText lines)
      else .ok emptyRawTable

/-- The strategy loop of `SimpleDataCleaner._read_csv_robustly` (lines
45-58): first non-`None`, non-empty strategy result wins; when all are
exhausted the function returns `pd.DataFrame()`. -/
def firstNonEmpty : List (Option RawTable) → RawTable
  | [] => emptyRawTable
  | some df :: rest => if !dfEmptyB df then df else firstNonEmpty rest
  | none :: rest => firstNonEmpty rest

/-- Embeds `SimpleDataCleaner._read_csv_robustly`: pandas strategy (oracle),
then the csv-module strategy, then the manual parse. -/
def readCsvRobustly (pandas : Option RawTable) (lines : List (List Char)) :
    RawTable :=
  firstNonEmpty [pandas, tryCsvModule lines, tryManualParse lines]

/-! ### Cleaning engine data model

Typed columns as pandas sees them after ingestion: a column is either
numeric (dtype float/int; missing = NaN) or text (dtype object; missing =
NaN).  Machine floats are modelled as exact rationals. -/

/-- One column of a DataFrame. -/
inductive ColData where
  | num (cells : List (Option ℚ))
  | text (cells : List (Option String))
deriving DecidableEq

/-- Number of cells. -/
def ColData.size : ColData → Nat
  | .num cs => cs.length
  | .text cs => cs.length

/-- `df[col].isnull().sum()`. -/
def ColData.missingCount : ColData → Nat
  | .num cs => cs.countP (fun c => c.isNone)
  | .text cs => cs.countP (fun c => c.isNone)

/-- A DataFrame for the cleaning engine: named, typed columns. -/
structure DataFrame where
  cols : List (String × ColData)
deriving DecidableEq

/-- `len(df)`: the row count (columns are parallel lists). -/
def DataFrame.nrows (df : DataFrame) : Nat :=
  (df.cols.map (fun p => p.2.size)).foldr max 0

/-- Pandas `df.empty` for the typed table. -/
def DataFrame.isEmptyB (df : DataFrame) : Bool :=
  decide (df.nrows = 0) || df.cols.isEmpty

/-- The cleaning options read by `SimpleDataCleaner.clean_data`
(`self.options.get(...)` with the documented defaults). -/
structure CleaningOptions where
  missing_threshold : ℚ
  handle_missing : String
  handle_duplicates : String
  standardize_text : Bool
deriving DecidableEq

/-- The documented defaults. -/
def defaultOptions : CleaningOptions := ⟨1/2, "auto", "drop", false⟩

/-- A JSON-serializable report value. -/
inductive ReportValue where
  | str (s : String)
  | int (n : Int)
deriving DecidableEq

/-- The cleaning report, an insertion-ordered dictionary. -/
abbrev Report := List (String × ReportValue)

/-- Python dict assignment `report[k] = v`: overwrite in place or append. -/
def setKey (r : Report) (k : String) (v : ReportValue) : Report :=
  if r.any (fun p => p.1 == k) then
    r.map (fun p => if p.1 == k then (k, v) else p)
  else r ++ [(k, v)]

/-! ### Column statistics -/

/-- Insertion into a sorted list (ascending). -/
def insertSorted (x : ℚ) : List ℚ → List ℚ
  | [] => [x]
  | y :: ys => if x ≤ y then x :: y :: ys else y :: insertSorted x ys

/-- Insertion sort, ascending. -/
def sortRat (l : List ℚ) : List ℚ := l.foldr insertSorted []

/-- Pandas `Series.median()` over the present values: sort ascending and take
the middle element (odd count) or the mean of the two middle elements (even
count); `none` (NaN) on an empty series. -/
def pandasMedian (l : List ℚ) : Option ℚ :=
  let s := sortRat l
  let n := s.length
  if n = 0 then none
  else if n % 2 = 1 then s[n / 2]?
  else do
    let a ← s[n / 2 - 1]?
    let b ← s[n / 2]?
    pure ((a + b) / 2)

/-- Modelled from the spec: the column mean named by the claim's
`handle_missing='mean'` branch, for comparison against the code's behaviour
(the arithmetic mean of the present values). -/
def columnMean (l : List ℚ) : ℚ := l.sum / l.length

/-! ### The cleaning pipeline of `SimpleDataCleaner.clean_data`
(`utils/simple_cleaner.py` lines 152-222) -/

/-- Stage 1: clean column names. -/
def cleanColumnNamesStage (df : DataFrame) : DataFrame :=
  ⟨df.cols.map (fun p => (cleanColumnName p.1, p.2))⟩

/-- `df[col].isnull().sum() / len(df)` for one column. -/
def missingFrac (n : Nat) (c : ColData) : ℚ := (c.missingCount : ℚ) / (n : ℚ)

/-- The columns stage 2 drops: those whose missing fraction strictly exceeds
the threshold (`missing_percent[missing_percent > threshold]`), guarded by
`if threshold < 1`. -/
def colsToDrop (t : ℚ) (df : DataFrame) : List String :=
  if t < 1 then
    (df.cols.filter (fun p => decide (t < missingFrac df.nrows p.2))).map (fun p => p.1)
  else []

/-- Stage 2: sparse-column elimination. -/
def dropSparseStage (t : ℚ) (df : DataFrame) : DataFrame :=
  if t < 1 then
    ⟨df.cols.filter (fun p => !decide (t < missingFrac df.nrows p.2))⟩
  else df

/-- Stage 3 on one column (`clean_data` lines 177-189).  The options are in
scope (`self.options`) but this stage never reads them: numeric columns with
a missing cell are filled with the median (`fillna` is a no-op when the
median of an all-missing column is NaN), non-numeric columns with the
literal `'Unknown'`. -/
def fillColumnStep (opts : CleaningOptions) (c : ColData) : ColData :=
  match c with
  | .num cs =>
    if cs.any (fun x => x.isNone) then
      match pandasMedian (cs.filterMap id) with
      | some m => .num (cs.map (fun x => some (x.getD m)))
      | none => .num cs
    else .num cs
  | .text cs =>
    if cs.any (fun x => x.isNone) then
      .text (cs.map (fun x => some (x.getD "Unknown")))
    else .text cs

/-- Stage 3 over the whole table. -/
def fillMissingStage (opts : CleaningOptions) (df : DataFrame) : DataFrame :=
  ⟨df.cols.map (fun p => (p.1, fillColumnStep opts p.2))⟩

/-- Cell access for row comparison (`df.duplicated()` compares whole rows;
missing values compare equal to each other). -/
def ColData.cell : ColData → Nat → Option (ℚ ⊕ String)
  | .num cs, i => (cs.getD i none).map Sum.inl
  | .text cs, i => (cs.getD i none).map Sum.inr

/-- Row `i` of the table. -/
def DataFrame.row (df : DataFrame) (i : Nat) : List (Option (ℚ ⊕ String)) :=
  df.cols.map (fun p => p.2.cell i)

/-- All rows, in order. -/
def DataFrame.rowList (df : DataFrame) : List (List (Option (ℚ ⊕ String))) :=
  (List.range df.nrows).map df.row

/-- `df.duplicated()`: flag every occurrence after the first. -/
def dupFlags {α : Type} [DecidableEq α] : List α → List α → List Bool
  | _, [] => []
  | seen, x :: xs => decide (x ∈ seen) :: dupFlags (x :: seen) xs

/-- Keep list entries whose mask flag is `false`. -/
def keepUnflagged (mask : List Bool) (l : List α) : List α :=
  (l.zip mask).filterMap (fun p => if p.2 then none else some p.1)

/-- Apply the duplicate mask to one column. -/
def ColData.filterMask (mask : List Bool) : ColData → ColData
  | .num cs => .num (keepUnflagged mask cs)
  | .text cs => .text (keepUnflagged mask cs)

/-- Stage 4: `drop_duplicates` (first occurrence kept) plus the
`duplicates_removed` counter, only under `handle_duplicates == 'drop'` and
only when some duplicate exists. -/
def dropDuplicatesStage (opts : CleaningOptions) (df : DataFrame)
    (rep : Report) : DataFrame × Report :=
  if opts.handle_duplicates == "drop" then
    let mask := dupFlags [] df.rowList
    let dups := mask.count true
    if 0 < dups then
      (⟨df.cols.map (fun p => (p.1, p.2.filterMask mask))⟩,
       setKey rep "duplicates_removed" (.int dups))
    else (df, rep)
  else (df, rep)

/-- `sample.startswith('[')`. -/
def startsWithBracket (s : String) : Bool :=
  match s.data with
  | [] => false
  | c :: _ => c == '['

/-- Stage 5: optional text standardization; skip columns whose first
non-missing sample contains `$` or starts with `[`; `astype(str)` turns
missing cells into the string `'nan'` before stripping. -/
def standardizeTextStage (opts : CleaningOptions) (df : DataFrame) : DataFrame :=
  if opts.standardize_text then
    ⟨df.cols.map (fun p =>
      match p.2 with
      | .num cs => (p.1, ColData.num cs)
      | .text cs =>
        let sample := (cs.filterMap id).headD ""
        if sample.data.contains '$' || startsWithBracket sample then
          (p.1, ColData.text cs)
        else
          (p.1, ColData.text (cs.map (fun c =>
            some (String.mk (pyStrip (c.getD "nan").data))))))⟩
  else df

/-- The report fields `_load_data` sets (lines 32-43): the original shape
when and only when the load produced a non-empty frame. -/
def loadReport (df : DataFrame) : Report :=
  if !df.isEmptyB then
    [("original_rows", ReportValue.int df.nrows),
     ("original_columns", ReportValue.int df.cols.length)]
  else []

/-- Embeds `SimpleDataCleaner.clean_data`: the empty-table early return,
then the five stages in order and the final report update.  `timestamp`
stands for `datetime.now().isoformat()`; `origShape` for
`self.original_shape`. -/
def cleanData (opts : CleaningOptions) (timestamp : String)
    (origShape : Nat × Nat) (df : DataFrame) (report : Report) :
    DataFrame × Report :=
  if df.isEmptyB then (df, setKey report "error" (.str "Empty DataFrame"))
  else
    let df1 := cleanColumnNamesStage df
    let df2 := dropSparseStage opts.missing_threshold df1
    let df3 := fillMissingStage opts df2
    let dr := dropDuplicatesStage opts df3 report
    let df5 := standardizeTextStage opts dr.1
    let rep2 :=
      setKey (setKey (setKey (setKey (setKey (setKey dr.2
        "final_rows" (.int df5.nrows))
        "final_columns" (.int df5.cols.length))
        "rows_removed" (.int ((origShape.1 : Int) - df5.nrows)))
        "columns_removed" (.int ((origShape.2 : Int) - df5.cols.length)))
        "cleaning_timestamp" (.str timestamp))
        "note" (.str "Simple cleaning applied")
    (df5, rep2)

/-! ### Temp-file lifecycle (`utils/csv_fixer.smart_read_csv` lines 67-92,
`app.index` lines 328-395) -/

/-- Embeds `smart_read_csv` with the filesystem effect explicit: the result
and the number of `fix_csv_issues` temp files left on disk.  `standard` and
`fixedRead` are the outcomes of the two `pd.read_csv` calls (`none` =
raised); `manual` is the `manual_csv_parse` fallback result.  The temp file
is created only after the standard read fails; the `os.unlink` cleanup sits
between the fixed-file read and the `return`, so it is skipped when that
read raises. -/
def smartReadCsv (standard : Option RawTable) (fixedRead : Option RawTable)
    (manual : RawTable) : RawTable × Nat :=
  match standard with
  | some df => (df, 0)
  | none =>
    match fixedRead with
    | some df => (df, 0)
    | none => (manual, 1)

/-- Temp-file count left by the upload route `app.index`: the repaired temp
CSV exists only when the raw read came back empty (line 335), and the
`os.unlink` cleanup (line 384) runs only when no exception was raised in
between — the `except` handler (line 426) does not delete it. -/
def indexTempsLeft (rawReadEmpty : Bool) (processingRaised : Bool) : Nat :=
  if rawReadEmpty then (if processingRaised then 1 else 0) else 0

/-! ### Test fixtures for concrete evaluations -/

/-- A parse oracle on which utf-8 and utf-16 both parse acceptably but to
different tables. -/
def twoEncodingOracle (e : String) : Option RawTable :=
  if e = "utf-8" then some ⟨[['a'], ['b']], [[['1'], ['2']]]⟩
  else if e = "utf-16" then some ⟨[['x'], ['y']], [[['3'], ['4']]]⟩
  else none

/-- A two-column, two-row test frame: column `a` half missing, column `b`
fully missing. -/
def sampleFrame : DataFrame :=
  ⟨[("a", .num [some 1, none]), ("b", .text [none, none])]⟩

/-! ## Theorems -/

/-! #### Helper lemmas for idempotence of the normalization -/

theorem collapseWS_single (a : Char) :
    collapseWS [a] = if isSpaceChar a then ['_'] else [a] := rfl

theorem collapseWS_cons2 (a b : Char) (cs : List Char) :
    collapseWS (a :: b :: cs) =
      if isSpaceChar a then
        (if isSpaceChar b then collapseWS (b :: cs) else '_' :: collapseWS (b :: cs))
      else a :: collapseWS (b :: cs) := rfl

theorem mem_collapseWS {c : Char} : ∀ {l : List Char}, c ∈ collapseWS l →
    c = '_' ∨ (c ∈ l ∧ isSpaceChar c = false) := by
  intro l
  induction l with
  | nil => intro h; simp [collapseWS] at h
  | cons a cs ih =>
    intro h
    cases cs with
    | nil =>
      rw [collapseWS_single] at h
      by_cases ha : isSpaceChar a = true
      · rw [if_pos ha] at h
        exact Or.inl (List.mem_singleton.mp h)
      · rw [if_neg ha] at h
        have := List.mem_singleton.mp h
        subst this
        exact Or.inr ⟨List.mem_cons_self _ _, Bool.eq_false_iff.mpr ha⟩
    | cons b cs' =>
      rw [collapseWS_cons2] at h
      by_cases ha : isSpaceChar a = true
      · rw [if_pos ha] at h
        by_cases hb : isSpaceChar b = true
        · rw [if_pos hb] at h
          rcases ih h with h' | ⟨hm, hs⟩
          · exact Or.inl h'
          · exact Or.inr ⟨List.mem_cons_of_mem _ hm, hs⟩
        · rw [if_neg hb] at h
          rcases List.mem_cons.mp h with h' | h'
          · exact Or.inl h'
          · rcases ih h' with h'' | ⟨hm, hs⟩
            · exact Or.inl h''
            · exact Or.inr ⟨List.mem_cons_of_mem _ hm, hs⟩
      · rw [if_neg ha] at h
        rcases List.mem_cons.mp h with h' | h'
        · subst h'
          exact Or.inr ⟨List.mem_cons_self _ _, Bool.eq_false_iff.mpr ha⟩
        · rcases ih h' with h'' | ⟨hm, hs⟩
          · exact Or.inl h''
          · exact Or.inr ⟨List.mem_cons_of_mem _ hm, hs⟩

theorem collapseWS_of_no_space : ∀ {l : List Char},
    (∀ c ∈ l, isSpaceChar c = false) → collapseWS l = l := by
  intro l
  induction l with
  | nil => simp [collapseWS]
  | cons a cs ih =>
    intro h
    have ha : isSpaceChar a = false := h a (List.mem_cons_self _ _)
    cases cs with
    | nil => simp [collapseWS, ha]
    | cons b cs' =>
      have hrest : ∀ c ∈ b :: cs', isSpaceChar c = false :=
        fun c hc => h c (List.mem_cons_of_mem _ hc)
      simp [collapseWS, ha, ih hrest]

theorem dropWhile_eq_self_of_none {p : Char → Bool} : ∀ {l : List Char},
    (∀ c ∈ l, p c = false) → l.dropWhile p = l := by
  intro l h
  cases l with
  | nil => rfl
  | cons a cs => simp [List.dropWhile, h a (List.mem_cons_self _ _)]

theorem pyStrip_eq_self_of_no_space {l : List Char}
    (h : ∀ c ∈ l, isSpaceChar c = false) : pyStrip l = l := by
  unfold pyStrip
  rw [dropWhile_eq_self_of_none h,
      dropWhile_eq_self_of_none (fun c hc => h c (List.mem_reverse.mp hc)),
      List.reverse_reverse]

theorem removeNonWordSpace_eq_self_of_word {l : List Char}
    (h : ∀ c ∈ l, isWordChar c = true) : removeNonWordSpace l = l := by
  unfold removeNonWordSpace
  apply List.filter_eq_self.mpr
  intro c hc
  simp [h c hc]

theorem toNat_ofNat_lower {n : Nat} (h1 : 65 ≤ n) (h2 : n ≤ 90) :
    (Char.ofNat (n + 32)).toNat = n + 32 := by
  interval_cases n <;> decide

theorem pyLowerChar_of_upper {c : Char} (h1 : 65 ≤ c.toNat) (h2 : c.toNat ≤ 90) :
    pyLowerChar c = [Char.ofNat (c.toNat + 32)] := by
  unfold pyLowerChar
  rw [if_pos ⟨h1, h2⟩]

theorem pyLowerChar_eq_self {c : Char}
    (h : ¬(65 ≤ c.toNat ∧ c.toNat ≤ 90)) (h304 : c.toNat ≠ 304) :
    pyLowerChar c = [c] := by
  unfold pyLowerChar
  rw [if_neg h, if_neg h304]

theorem isWordChar_iff {c : Char} : isWordChar c = true ↔
    ((48 ≤ c.toNat ∧ c.toNat ≤ 57) ∨ (65 ≤ c.toNat ∧ c.toNat ≤ 90) ∨
     (97 ≤ c.toNat ∧ c.toNat ≤ 122) ∨ c.toNat = 95 ∨ c.toNat = 304) := by
  simp [isWordChar, Bool.or_eq_true, Bool.and_eq_true, decide_eq_true_eq, or_assoc]

theorem isSpaceChar_iff {c : Char} : isSpaceChar c = true ↔
    (c.toNat = 32 ∨ c.toNat = 9 ∨ c.toNat = 10 ∨ c.toNat = 13 ∨
     c.toNat = 11 ∨ c.toNat = 12) := by
  simp [isSpaceChar, Bool.or_eq_true, decide_eq_true_eq, or_assoc]

theorem isWordChar_not_space {c : Char} (h : isWordChar c = true) :
    isSpaceChar c = false := by
  rw [Bool.eq_false_iff]
  intro hsp
  rcases isWordChar_iff.mp h with h' | h' | h' | h' | h' <;>
    rcases isSpaceChar_iff.mp hsp with h'' | h'' | h'' | h'' | h'' | h'' <;> omega

theorem mem_of_mem_dropWhile {p : Char → Bool} : ∀ {l : List Char} {c : Char},
    c ∈ l.dropWhile p → c ∈ l := by
  intro l
  induction l with
  | nil => intro c h; exact h
  | cons a cs ih =>
    intro c h
    rw [List.dropWhile_cons] at h
    by_cases hp : p a = true
    · rw [if_pos hp] at h
      exact List.mem_cons_of_mem _ (ih h)
    · rw [if_neg hp] at h
      exact h

theorem mem_of_mem_pyStrip {c : Char} {l : List Char} (h : c ∈ pyStrip l) :
    c ∈ l := by
  unfold pyStrip at h
  rw [List.mem_reverse] at h
  have h1 := mem_of_mem_dropWhile h
  rw [List.mem_reverse] at h1
  exact mem_of_mem_dropWhile h1

theorem bind_pyLowerChar_eq_self : ∀ {l : List Char},
    (∀ c ∈ l, pyLowerChar c = [c]) → l.flatMap pyLowerChar = l := by
  intro l
  induction l with
  | nil => intro _; rfl
  | cons a cs ih =>
    intro h
    rw [List.flatMap_cons, h a (List.mem_cons_self _ _),
        ih (fun c hc => h c (List.mem_cons_of_mem _ hc))]
    rfl

theorem normalizeChars_mem_of_ascii {l : List Char}
    (hascii : ∀ c ∈ l, c.toNat ≤ 127) :
    ∀ {c : Char}, c ∈ normalizeChars l →
      isWordChar c = true ∧ isSpaceChar c = false ∧
      ¬(65 ≤ c.toNat ∧ c.toNat ≤ 90) ∧ c.toNat ≤ 127 := by
  intro c h
  unfold normalizeChars at h
  rcases List.mem_flatMap.mp h with ⟨c0, hc0, hcc0⟩
  have hc0props : isWordChar c0 = true ∧ c0.toNat ≤ 127 := by
    rcases mem_collapseWS hc0 with rfl | ⟨hm, hns⟩
    · exact ⟨by decide, by decide⟩
    · rcases List.mem_filter.mp hm with ⟨hmem, hcls⟩
      refine ⟨?_, hascii c0 (mem_of_mem_pyStrip hmem)⟩
      rcases Bool.or_eq_true _ _ |>.mp hcls with hw | hs
      · exact hw
      · rw [hns] at hs; cases hs
  obtain ⟨hword, hasc⟩ := hc0props
  by_cases hup : 65 ≤ c0.toNat ∧ c0.toNat ≤ 90
  · rw [pyLowerChar_of_upper hup.1 hup.2] at hcc0
    have hc := List.mem_singleton.mp hcc0
    subst hc
    have ht := toNat_ofNat_lower hup.1 hup.2
    refine ⟨?_, ?_, by omega, by omega⟩
    · apply isWordChar_iff.mpr
      right; right; left; omega
    · rw [Bool.eq_false_iff]
      intro hsp
      rcases isSpaceChar_iff.mp hsp with h' | h' | h' | h' | h' | h' <;> omega
  · have h304 : c0.toNat ≠ 304 := by omega
    rw [pyLowerChar_eq_self hup h304] at hcc0
    have hc := List.mem_singleton.mp hcc0
    subst hc
    exact ⟨hword, isWordChar_not_space hword, hup, hasc⟩

theorem normalizeChars_idem_of_ascii {l : List Char}
    (hascii : ∀ c ∈ l, c.toNat ≤ 127) :
    normalizeChars (normalizeChars l) = normalizeChars l := by
  have hword : ∀ c ∈ normalizeChars l, isWordChar c = true :=
    fun c hc => (normalizeChars_mem_of_ascii hascii hc).1
  have hnspace : ∀ c ∈ normalizeChars l, isSpaceChar c = false :=
    fun c hc => (normalizeChars_mem_of_ascii hascii hc).2.1
  have hnupper : ∀ c ∈ normalizeChars l, ¬(65 ≤ c.toNat ∧ c.toNat ≤ 90) :=
    fun c hc => (normalizeChars_mem_of_ascii hascii hc).2.2.1
  have hasc : ∀ c ∈ normalizeChars l, c.toNat ≤ 127 :=
    fun c hc => (normalizeChars_mem_of_ascii hascii hc).2.2.2
  conv_lhs => rw [normalizeChars]
  rw [pyStrip_eq_self_of_no_space hnspace,
      removeNonWordSpace_eq_self_of_word hword,
      collapseWS_of_no_space hnspace]
  apply bind_pyLowerChar_eq_self
  intro c hc
  exact pyLowerChar_eq_self (hnupper c hc) (by have := hasc c hc; omega)

theorem cleanColumnName_column : cleanColumnName "column" = "column" := by decide

/-- C9 (amended): column-name normalization (trim, strip characters outside
the `\w\s` set, collapse whitespace runs to a single underscore, lowercase,
empty result becomes `'column'`) is idempotent on every string of ASCII
characters; it is not idempotent on arbitrary Unicode input (see the
counterexample). -/
theorem clean_column_name_idempotent_on_ascii (s : String)
    (h : ∀ c ∈ s.data, c.toNat ≤ 127) :
    cleanColumnName (cleanColumnName s) = cleanColumnName s := by
  unfold cleanColumnName
  by_cases hemp : (normalizeChars s.data).isEmpty
  · simp only [hemp, if_true]
    have := cleanColumnName_column
    unfold cleanColumnName at this
    simpa using this
  · simp only [hemp, if_false, Bool.false_eq_true]
    have hdata : (String.mk (normalizeChars s.data)).data = normalizeChars s.data := rfl
    simp only [hdata, normalizeChars_idem_of_ascii h, hemp, if_false,
      Bool.false_eq_true]

/-- C9 witness: a concrete ASCII name — `' First Name! '` normalizes to
`'first_name'`, and normalizing again returns it unchanged. -/
theorem clean_column_name_idempotent_on_ascii_witness :
    (∀ c ∈ (" First Name! ").data, c.toNat ≤ 127) ∧
    cleanColumnName " First Name! " = "first_name" ∧
    cleanColumnName (cleanColumnName " First Name! ") =
      cleanColumnName " First Name! " :=
  ⟨by decide, by decide, clean_column_name_idempotent_on_ascii _ (by decide)⟩

/-- C9 counterexample: normalization is NOT idempotent in general.  Python's
full-Unicode `lower()` maps U+0130 (`'İ'`, a `\w` letter the removal pass
keeps) to the two characters `'i'` + U+0307 (combining dot above); U+0307 is
neither `\w` nor `\s`, so the next pass strips it:
`_clean_column_name('İ') = 'i' + U+0307` but applying the function again
yields `'i'`. -/
theorem clean_column_name_not_idempotent :
    cleanColumnName (String.mk [Char.ofNat 304]) =
      String.mk [Char.ofNat 105, Char.ofNat 775] ∧
    cleanColumnName (String.mk [Char.ofNat 105, Char.ofNat 775]) =
      String.mk [Char.ofNat 105] ∧
    cleanColumnName (cleanColumnName (String.mk [Char.ofNat 304])) ≠
      cleanColumnName (String.mk [Char.ofNat 304]) :=
  ⟨by decide, by decide, by decide⟩

/-! ### Basic lemmas about splitting -/

theorem splitOn_nil (d : Char) : splitOn d [] = [[]] := rfl

theorem splitOn_cons (d c : Char) (cs : List Char) :
    splitOn d (c :: cs) =
      if c = d then [] :: splitOn d cs
      else match splitOn d cs with
           | [] => [[c]]
           | f :: r => (c :: f) :: r := rfl

theorem splitOn_cons_exists (d : Char) (l : List Char) :
    ∃ f r, splitOn d l = f :: r := by
  cases l with
  | nil => exact ⟨[], [], rfl⟩
  | cons c cs =>
    rw [splitOn_cons]
    by_cases h : c = d
    · rw [if_pos h]; exact ⟨[], splitOn d cs, rfl⟩
    · rw [if_neg h]
      obtain ⟨f, r, hfr⟩ := splitOn_cons_exists d cs
      rw [hfr]
      exact ⟨c :: f, r, rfl⟩

theorem length_splitOn (d : Char) : ∀ l : List Char,
    (splitOn d l).length = l.count d + 1 := by
  intro l
  induction l with
  | nil => simp [splitOn]
  | cons c cs ih =>
    rw [splitOn_cons]
    by_cases h : c = d
    · subst h
      rw [if_pos rfl, List.length_cons, ih, List.count_cons_self]
    · rw [if_neg h]
      obtain ⟨f, r, hfr⟩ := splitOn_cons_exists d cs
      rw [hfr]
      have hih := ih
      rw [hfr, List.length_cons] at hih
      show ((c :: f) :: r).length = (c :: cs).count d + 1
      rw [List.length_cons, List.count_cons_of_ne (fun hh => h hh.symm)]
      omega

theorem splitOn_append_delim (d : Char) : ∀ l : List Char,
    splitOn d (l ++ [d]) = splitOn d l ++ [[]] := by
  intro l
  induction l with
  | nil => simp [splitOn]
  | cons c cs ih =>
    by_cases h : c = d
    · simp only [List.cons_append, splitOn_cons, if_pos h, ih, List.cons_append]
    · simp only [List.cons_append, splitOn_cons, if_neg h, ih]
      obtain ⟨f, r, hfr⟩ := splitOn_cons_exists d cs
      rw [hfr]
      simp

theorem splitOn_append_replicate (d : Char) (l : List Char) : ∀ k : Nat,
    splitOn d (l ++ List.replicate k d) = splitOn d l ++ List.replicate k [] := by
  intro k
  induction k with
  | zero => simp
  | succ n ih =>
    have : List.replicate (n + 1) d = List.replicate n d ++ [d] := by
      rw [List.replicate_succ']
    rw [this, ← List.append_assoc, splitOn_append_delim, ih,
        List.append_assoc, ← List.replicate_succ']

theorem splitOn_of_count_zero (d : Char) : ∀ {l : List Char},
    l.count d = 0 → splitOn d l = [l] := by
  intro l
  induction l with
  | nil => intro _; rfl
  | cons c cs ih =>
    intro h
    have hc : ¬ c = d := by
      intro hh
      subst hh
      simp [List.count_cons] at h
    have hcs : cs.count d = 0 := by
      simp only [List.count_cons] at h
      omega
    rw [splitOn_cons, if_neg hc, ih hcs]

theorem splitOn_append_cons_delim (d : Char) : ∀ {p : List Char},
    p.count d = 0 → ∀ t, splitOn d (p ++ d :: t) = p :: splitOn d t := by
  intro p
  induction p with
  | nil =>
    intro _ t
    simp [splitOn_cons]
  | cons c cs ih =>
    intro h t
    have hc : ¬ c = d := by
      intro hh; subst hh; simp [List.count_cons] at h
    have hcs : cs.count d = 0 := by
      simp only [List.count_cons] at h
      omega
    rw [List.cons_append, splitOn_cons, if_neg hc, ih hcs]

theorem splitOn_joinWith (d : Char) : ∀ {ps : List (List Char)}, ps ≠ [] →
    (∀ p ∈ ps, p.count d = 0) → splitOn d (joinWith d ps) = ps := by
  intro ps
  induction ps with
  | nil => intro h; exact absurd rfl h
  | cons p ps ih =>
    intro _ hcount
    cases ps with
    | nil =>
      show splitOn d p = [p]
      exact splitOn_of_count_zero d (hcount p (List.mem_cons_self _ _))
    | cons q qs =>
      show splitOn d (p ++ d :: joinWith d (q :: qs)) = p :: q :: qs
      rw [splitOn_append_cons_delim d (hcount p (List.mem_cons_self _ _)),
          ih (by simp) (fun r hr => hcount r (List.mem_cons_of_mem _ hr))]

theorem count_of_mem_splitOn (d : Char) : ∀ {l f : List Char},
    f ∈ splitOn d l → f.count d = 0 := by
  intro l
  induction l with
  | nil =>
    intro f h
    simp [splitOn] at h
    subst h
    rfl
  | cons c cs ih =>
    intro f h
    rw [splitOn_cons] at h
    by_cases hc : c = d
    · rw [if_pos hc] at h
      rcases List.mem_cons.mp h with rfl | h'
      · rfl
      · exact ih h'
    · rw [if_neg hc] at h
      obtain ⟨g, r, hgr⟩ := splitOn_cons_exists d cs
      rw [hgr] at h
      rcases List.mem_cons.mp h with rfl | h'
      · have hg : g ∈ splitOn d cs := by rw [hgr]; exact List.mem_cons_self _ _
        rw [List.count_cons_of_ne (fun hh => hc hh.symm)]
        exact ih hg
      · exact ih (by rw [hgr]; exact List.mem_cons_of_mem _ h')

theorem mem_of_mem_splitOn (d : Char) : ∀ {l f : List Char} {c : Char},
    f ∈ splitOn d l → c ∈ f → c ∈ l := by
  intro l
  induction l with
  | nil =>
    intro f c h hc
    simp [splitOn] at h
    subst h
    cases hc
  | cons a cs ih =>
    intro f c h hc
    rw [splitOn_cons] at h
    by_cases ha : a = d
    · rw [if_pos ha] at h
      rcases List.mem_cons.mp h with rfl | h'
      · cases hc
      · exact List.mem_cons_of_mem _ (ih h' hc)
    · rw [if_neg ha] at h
      obtain ⟨g, r, hgr⟩ := splitOn_cons_exists d cs
      rw [hgr] at h
      rcases List.mem_cons.mp h with rfl | h'
      · rcases List.mem_cons.mp hc with rfl | hc'
        · exact List.mem_cons_self _ _
        · have hg : g ∈ splitOn d cs := by rw [hgr]; exact List.mem_cons_self _ _
          exact List.mem_cons_of_mem _ (ih hg hc')
      · have hmem : f ∈ splitOn d cs := by rw [hgr]; exact List.mem_cons_of_mem _ h'
        exact List.mem_cons_of_mem _ (ih hmem hc)

theorem mem_of_mem_joinWith (d : Char) : ∀ {ps : List (List Char)} {c : Char},
    c ∈ joinWith d ps → c = d ∨ ∃ p ∈ ps, c ∈ p := by
  intro ps
  induction ps with
  | nil => intro c h; cases h
  | cons p ps ih =>
    intro c h
    cases ps with
    | nil =>
      exact Or.inr ⟨p, List.mem_cons_self _ _, h⟩
    | cons q qs =>
      have : joinWith d (p :: q :: qs) = p ++ d :: joinWith d (q :: qs) := rfl
      rw [this] at h
      rcases List.mem_append.mp h with h' | h'
      · exact Or.inr ⟨p, List.mem_cons_self _ _, h'⟩
      · rcases List.mem_cons.mp h' with rfl | h''
        · exact Or.inl rfl
        · rcases ih h'' with h3 | ⟨r, hr, hcr⟩
          · exact Or.inl h3
          · exact Or.inr ⟨r, List.mem_cons_of_mem _ hr, hcr⟩

/-! ### Lemmas about quote-aware splitting -/

theorem csvSplitQ_nil (d : Char) (q : Bool) : csvSplitQ d [] q = [[]] := rfl

theorem csvSplitQ_cons (d c : Char) (cs : List Char) (q : Bool) :
    csvSplitQ d (c :: cs) q =
      if c = '"' then csvSplitQ d cs (!q)
      else if c = d ∧ q = false then [] :: csvSplitQ d cs false
      else match csvSplitQ d cs q with
           | [] => [[c]]
           | f :: r => (c :: f) :: r := rfl

theorem csvSplitQ_no_quote (d : Char) : ∀ {l : List Char},
    (∀ c ∈ l, c ≠ '"') → csvSplitQ d l false = splitOn d l := by
  intro l
  induction l with
  | nil => intro _; rfl
  | cons c cs ih =>
    intro h
    have hc : c ≠ '"' := h c (List.mem_cons_self _ _)
    have hcs : ∀ x ∈ cs, x ≠ '"' := fun x hx => h x (List.mem_cons_of_mem _ hx)
    rw [csvSplitQ_cons, if_neg hc, splitOn_cons]
    by_cases hcd : c = d
    · rw [if_pos ⟨hcd, rfl⟩, if_pos hcd, ih hcs]
    · rw [if_neg (fun hh => hcd hh.1), if_neg hcd, ih hcs]

theorem csvSplitQ_closing (d : Char) : ∀ {B : List Char},
    (∀ c ∈ B, c ≠ '"') → csvSplitQ d (B ++ ['"']) true = [B] := by
  intro B
  induction B with
  | nil =>
    intro _
    rw [List.nil_append, csvSplitQ_cons, if_pos rfl]
    rfl
  | cons b bs ih =>
    intro h
    have hb : b ≠ '"' := h b (List.mem_cons_self _ _)
    rw [List.cons_append, csvSplitQ_cons, if_neg hb,
        if_neg (fun hh => absurd hh.2 (by decide)),
        ih (fun x hx => h x (List.mem_cons_of_mem _ hx))]

theorem csvSplitQ_merge {B : List Char} (hB : ∀ c ∈ B, c ≠ '"') :
    ∀ {A : List Char}, (∀ c ∈ A, c ≠ '"') →
      csvSplitQ ',' (A ++ ',' :: '"' :: (B ++ ['"'])) false =
        splitOn ',' A ++ [B] := by
  intro A
  induction A with
  | nil =>
    intro _
    rw [List.nil_append, csvSplitQ_cons, if_neg (by decide : ¬(',' : Char) = '"'),
        if_pos ⟨rfl, rfl⟩, csvSplitQ_cons, if_pos rfl, Bool.not_false,
        csvSplitQ_closing ',' hB]
    rfl
  | cons a A' ih =>
    intro h
    have ha : a ≠ '"' := h a (List.mem_cons_self _ _)
    have hA' : ∀ c ∈ A', c ≠ '"' := fun c hc => h c (List.mem_cons_of_mem _ hc)
    rw [List.cons_append, csvSplitQ_cons, if_neg ha]
    by_cases had : a = ','
    · rw [if_pos ⟨had, rfl⟩, ih hA', splitOn_cons, if_pos had]
      rfl
    · rw [if_neg (fun hh => had hh.1), ih hA', splitOn_cons, if_neg had]
      obtain ⟨f, r, hfr⟩ := splitOn_cons_exists ',' A'
      rw [hfr]
      rfl

/-! ### Lemmas about `fixLine` -/

theorem fixLine_of_le {N : Nat} {l : List Char} (h : l.count ',' ≤ N) :
    fixLine N l = l ++ List.replicate (N - l.count ',') ',' := by
  rcases Nat.lt_or_ge (l.count ',') N with hlt | hge
  · simp only [fixLine]
    rw [if_pos hlt]
  · have heq : l.count ',' = N := le_antisymm h hge
    simp only [fixLine]
    rw [if_neg (by omega), if_neg (by omega), heq]
    simp

theorem fixLine_of_gt {N : Nat} {l : List Char} (h : N < l.count ',') :
    fixLine N l =
      joinWith ',' ((splitOn ',' l).take N) ++ [','] ++ ['"'] ++
        joinWith ',' ((splitOn ',' l).drop N) ++ ['"'] := by
  simp only [fixLine]
  rw [if_neg (by omega), if_pos h, if_pos (by rw [length_splitOn]; omega)]

/-- C5 (amended): for a header with `N ≥ 1` delimiters and a quote-free data
line, the content-cleaning pass reconciles the line to the header's
delimiter count — fewer commas: the raw comma-split of the fixed line is the
original fields padded with empty trailing fields; more commas: the
quote-aware fields of the fixed line are the first `N` fields followed by
the remaining fields joined into one (quoted) trailing field; in both cases
the fixed line has exactly `N + 1` quote-aware fields.  (For `N = 0` the
pass prepends a spurious empty field, and delimiters hidden inside quotes
defeat the raw count — see the counterexample.) -/
theorem fixline_reconciles_to_header (N : Nat) (l : List Char)
    (hq : ∀ c ∈ l, c ≠ '"') (hN : 1 ≤ N) :
    (l.count ',' ≤ N →
      csvFields ',' (fixLine N l) =
        splitOn ',' l ++ List.replicate (N - l.count ',') []) ∧
    (N < l.count ',' →
      csvFields ',' (fixLine N l) =
        (splitOn ',' l).take N ++ [joinWith ',' ((splitOn ',' l).drop N)]) ∧
    (csvFields ',' (fixLine N l)).length = N + 1 := by
  have hpad : l.count ',' ≤ N → csvFields ',' (fixLine N l) =
      splitOn ',' l ++ List.replicate (N - l.count ',') [] := by
    intro h
    rw [fixLine_of_le h]
    unfold csvFields
    rw [csvSplitQ_no_quote ',' ?_, splitOn_append_replicate]
    intro c hc
    rcases List.mem_append.mp hc with h' | h'
    · exact hq c h'
    · rw [List.eq_of_mem_replicate h']
      decide
  have hmerge : N < l.count ',' → csvFields ',' (fixLine N l) =
      (splitOn ',' l).take N ++ [joinWith ',' ((splitOn ',' l).drop N)] := by
    intro h
    rw [fixLine_of_gt h]
    unfold csvFields
    have hassoc : joinWith ',' ((splitOn ',' l).take N) ++ [','] ++ ['"'] ++
        joinWith ',' ((splitOn ',' l).drop N) ++ ['"'] =
        joinWith ',' ((splitOn ',' l).take N) ++
          (',' :: '"' :: (joinWith ',' ((splitOn ',' l).drop N) ++ ['"'])) := by
      simp [List.append_assoc]
    rw [hassoc]
    have hBq : ∀ c ∈ joinWith ',' ((splitOn ',' l).drop N), c ≠ '"' := by
      intro c hc
      rcases mem_of_mem_joinWith ',' hc with rfl | ⟨p, hp, hcp⟩
      · decide
      · exact hq c (mem_of_mem_splitOn ',' (List.mem_of_mem_drop hp) hcp)
    have hAq : ∀ c ∈ joinWith ',' ((splitOn ',' l).take N), c ≠ '"' := by
      intro c hc
      rcases mem_of_mem_joinWith ',' hc with rfl | ⟨p, hp, hcp⟩
      · decide
      · exact hq c (mem_of_mem_splitOn ',' (List.mem_of_mem_take hp) hcp)
    rw [csvSplitQ_merge hBq hAq]
    congr 1
    apply splitOn_joinWith
    · have hlen : ((splitOn ',' l).take N).length = N := by
        rw [List.length_take, length_splitOn]
        omega
      intro hnil
      rw [hnil] at hlen
      simp at hlen
      omega
    · intro p hp
      exact count_of_mem_splitOn ',' (List.mem_of_mem_take hp)
  refine ⟨hpad, hmerge, ?_⟩
  rcases le_or_lt (l.count ',') N with h | h
  · rw [hpad h, List.length_append, length_splitOn, List.length_replicate]
    omega
  · rw [hmerge h, List.length_append, List.length_take, length_splitOn]
    simp
    omega

/-! ### Rectangularity of the parsing tiers -/

theorem le_maxRowLen : ∀ {rows : List (List (List Char))} {r : List (List Char)},
    r ∈ rows → r.length ≤ maxRowLen rows := by
  intro rows
  induction rows with
  | nil => intro r h; cases h
  | cons a rs ih =>
    intro r h
    simp only [maxRowLen, List.map_cons, List.foldr_cons]
    rcases List.mem_cons.mp h with rfl | h'
    · exact Nat.le_max_left _ _
    · exact le_trans (ih h') (Nat.le_max_right _ _)

theorem padRow_length {w : Nat} {r : List (List Char)} (h : r.length ≤ w) :
    (padRow w r).length = w := by
  unfold padRow
  rw [List.length_append, List.length_replicate]
  omega

theorem emptyRawTable_rect : emptyRawTable.Rectangular := by
  intro r hr
  cases hr

theorem padTable_rect (rows : List (List (List Char))) :
    (padTable rows).Rectangular := by
  unfold padTable
  by_cases h : 1 < rows.length
  · rw [if_pos h]
    cases hrows : rows with
    | nil => rw [hrows] at h; simp at h
    | cons a rs =>
      intro r hr
      simp only [hrows, List.map_cons] at hr ⊢
      simp only [List.headD_cons, List.tail_cons] at hr ⊢
      have hrmem : r ∈ (a :: rs).map (padRow (maxRowLen (a :: rs))) := by
        rw [List.map_cons]
        exact List.mem_cons_of_mem _ hr
      rcases List.mem_map.mp hrmem with ⟨r0, hr0, rfl⟩
      rw [padRow_length (le_maxRowLen hr0),
          padRow_length (le_maxRowLen (List.mem_cons_self a rs))]
  · rw [if_neg h]
    exact emptyRawTable_rect

theorem manualCsvParse_rect (lines : List (List Char)) :
    (manualCsvParse lines).Rectangular := by
  unfold manualCsvParse
  exact padTable_rect _

theorem pdDataFrame_rect {cols : List (List Char)} {rs : List (List (List Char))}
    {t : RawTable} (h : pdDataFrame cols rs = some t) : t.Rectangular := by
  unfold pdDataFrame at h
  by_cases hall : rs.all (fun r => r.length == cols.length) = true
  · rw [if_pos hall] at h
    injection h with h'
    subst h'
    intro r hr
    have hb := List.all_eq_true.mp hall r hr
    rw [beq_iff_eq] at hb
    exact hb
  · rw [if_neg hall] at h
    cases h

theorem tryManualParse_spec {lines : List (List Char)} {t : RawTable}
    (h : tryManualParse lines = some t) :
    t.Rectangular ∧
    t.columns.length =
      maxRowLen (((lines.map pyStrip).filter (fun l => !l.isEmpty)).map
        (fun l => (splitOn ',' l).map pyStrip)) := by
  unfold tryManualParse at h
  by_cases h0 : lines.isEmpty
  · rw [if_pos h0] at h; cases h
  rw [if_neg h0] at h
  by_cases h1 : ((lines.map pyStrip).filter (fun l => !l.isEmpty)).isEmpty
  · rw [if_pos h1] at h; cases h
  rw [if_neg h1] at h
  set cleaned := (lines.map pyStrip).filter (fun l => !l.isEmpty) with hcleaned
  set rows := cleaned.map (fun l => (splitOn ',' l).map pyStrip) with hrows
  set w := maxRowLen rows with hw
  have hrows_ne : rows ≠ [] := by
    intro hnil
    rw [hrows] at hnil
    rcases List.map_eq_nil_iff.mp hnil with h'
    rw [h'] at h1
    exact h1 rfl
  obtain ⟨r0, rest, hr0⟩ := List.exists_cons_of_ne_nil hrows_ne
  have hhead : ((rows.map (padRow w)).headD []) = padRow w r0 := by
    rw [hr0, List.map_cons, List.headD_cons]
  have hcols_len : ∀ u : RawTable, u.columns = (rows.map (padRow w)).headD [] →
      u.columns.length = w := by
    intro u hu
    rw [hu, hhead, padRow_length (le_maxRowLen (by rw [hr0]; exact List.mem_cons_self _ _))]
  by_cases h2 : 1 < (rows.map (padRow w)).length
  · rw [if_pos h2] at h
    injection h with h'
    subst h'
    constructor
    · intro r hr
      simp only at hr
      have hrmem : r ∈ rows.map (padRow w) := List.mem_of_mem_tail hr
      rcases List.mem_map.mp hrmem with ⟨q, hq, rfl⟩
      rw [padRow_length (le_maxRowLen hq), hcols_len _ rfl]
    · exact hcols_len _ rfl
  · rw [if_neg h2] at h
    injection h with h'
    subst h'
    constructor
    · intro r hr
      cases hr
    · exact hcols_len _ rfl

theorem textManualFallback_rect (cl : List (List Char)) :
    (textManualFallback cl).Rectangular := by
  unfold textManualFallback
  by_cases h2 : 1 < (textManualRows cl).length
  · rw [if_pos h2]
    cases hpd : pdDataFrame ((textManualRows cl).headD []) (textManualRows cl).tail with
    | some df => exact pdDataFrame_rect hpd
    | none => exact emptyRawTable_rect
  · rw [if_neg h2]
    exact emptyRawTable_rect

theorem textBasedCsvParse_rect (pT : List (List Char) → Option RawTable)
    (lines : List (List Char))
    (hp : ∀ cl t, pT cl = some t → t.Rectangular) :
    (textBasedCsvParse pT lines).Rectangular := by
  unfold textBasedCsvParse
  cases hpt : pT (ensureConsistentColumns lines) with
  | some df => exact hp _ df hpt
  | none => exact textManualFallback_rect _

/-! ### The encoding sweep -/

theorem firstAccepted_cons (parse : String → Option RawTable)
    (ok : RawTable → Bool) (e : String) (es : List String) :
    firstAccepted parse ok (e :: es) =
      match parse e with
      | some df => if ok df then some df else firstAccepted parse ok es
      | none => firstAccepted parse ok es := rfl

theorem firstAccepted_spec (parse : String → Option RawTable)
    (ok : RawTable → Bool) :
    ∀ (L : List String) (t : RawTable), firstAccepted parse ok L = some t →
      ok t = true ∧ ∃ l1 e l2, L = l1 ++ e :: l2 ∧ parse e = some t ∧
        ∀ e' ∈ l1, ∀ t', parse e' = some t' → ok t' = false := by
  intro L
  induction L with
  | nil => intro t h; cases h
  | cons e es ih =>
    intro t h
    rw [firstAccepted_cons] at h
    split at h
    · rename_i df hp
      by_cases hok : ok df = true
      · rw [if_pos hok] at h
        injection h with h'
        subst h'
        exact ⟨hok, [], e, es, rfl, hp, by intro e' he'; cases he'⟩
      · rw [if_neg hok] at h
        obtain ⟨hokt, l1, e1, l2, heq, hpe, hmin⟩ := ih t h
        refine ⟨hokt, e :: l1, e1, l2, by rw [heq, List.cons_append], hpe, ?_⟩
        intro e' he' t' hpt'
        rcases List.mem_cons.mp he' with rfl | h'
        · rw [hp] at hpt'
          injection hpt' with hh
          subst hh
          exact Bool.eq_false_iff.mpr hok
        · exact hmin e' h' t' hpt'
    · rename_i hp
      obtain ⟨hokt, l1, e1, l2, heq, hpe, hmin⟩ := ih t h
      refine ⟨hokt, e :: l1, e1, l2, by rw [heq, List.cons_append], hpe, ?_⟩
      intro e' he' t' hpt'
      rcases List.mem_cons.mp he' with rfl | h'
      · rw [hp] at hpt'
        cases hpt'
      · exact hmin e' h' t' hpt'

theorem readCsvWithFallbacks_rect
    (p1 p2 : String → Option RawTable) (pT : List (List Char) → Option RawTable)
    (lines : List (List Char)) (t : RawTable)
    (h1 : ∀ e t', p1 e = some t' → t'.Rectangular)
    (h2 : ∀ e t', p2 e = some t' → t'.Rectangular)
    (h3 : ∀ cl t', pT cl = some t' → t'.Rectangular)
    (h : readCsvWithFallbacks p1 p2 pT lines = .ok t) : t.Rectangular := by
  unfold readCsvWithFallbacks at h
  split at h
  · rename_i df hfa1
    injection h with h'
    subst h'
    obtain ⟨_, l1, e, l2, _, hpe, _⟩ := firstAccepted_spec p1 acceptStrict _ _ hfa1
    exact h1 e _ hpe
  · rename_i hfa1
    split at h
    · rename_i df hfa2
      injection h with h'
      subst h'
      obtain ⟨_, l1, e, l2, _, hpe, _⟩ := firstAccepted_spec p2 acceptSkip _ _ hfa2
      exact h2 e _ hpe
    · rename_i hfa2
      by_cases hm : dfEmptyB (manualCsvParse lines) = true
      · rw [if_neg (by rw [hm]; decide)] at h
        by_cases ht : dfEmptyB (textBasedCsvParse pT lines) = true
        · rw [if_neg (by rw [ht]; decide)] at h
          injection h with h'
          subst h'
          exact emptyRawTable_rect
        · have ht' : dfEmptyB (textBasedCsvParse pT lines) = false :=
            Bool.eq_false_iff.mpr ht
          rw [if_pos (by rw [ht']; rfl)] at h
          injection h with h'
          subst h'
          exact textBasedCsvParse_rect pT lines h3
      · have hm' : dfEmptyB (manualCsvParse lines) = false := Bool.eq_false_iff.mpr hm
        rw [if_pos (by rw [hm']; rfl)] at h
        injection h with h'
        subst h'
        exact manualCsvParse_rect lines

/-! ### Delimiter selection: Python `max` takes the first maximum -/

theorem selectDelimiter_spec (l : List Char) :
    (∃ l1 l2, candidateDelims = l1 ++ selectDelimiter l :: l2 ∧
      ∀ d ∈ l1, l.count d < l.count (selectDelimiter l)) ∧
    ∀ d ∈ candidateDelims, l.count d ≤ l.count (selectDelimiter l) := by
  unfold selectDelimiter pyMaxBy
  simp only [List.foldl_cons, List.foldl_nil]
  by_cases h1 : l.count ',' < l.count ';'
  · rw [if_pos h1]
    by_cases h2 : l.count ';' < l.count '\t'
    · rw [if_pos h2]
      by_cases h3 : l.count '\t' < l.count '|'
      · rw [if_pos h3]
        refine ⟨⟨[',', ';', '\t'], [], by decide, ?_⟩, ?_⟩
        · intro d hd
          fin_cases hd <;> omega
        · intro d hd
          fin_cases hd <;> omega
      · rw [if_neg h3]
        refine ⟨⟨[',', ';'], ['|'], by decide, ?_⟩, ?_⟩
        · intro d hd
          fin_cases hd <;> omega
        · intro d hd
          fin_cases hd <;> omega
    · rw [if_neg h2]
      by_cases h3 : l.count ';' < l.count '|'
      · rw [if_pos h3]
        refine ⟨⟨[',', ';', '\t'], [], by decide, ?_⟩, ?_⟩
        · intro d hd
          fin_cases hd <;> omega
        · intro d hd
          fin_cases hd <;> omega
      · rw [if_neg h3]
        refine ⟨⟨[','], ['\t', '|'], by decide, ?_⟩, ?_⟩
        · intro d hd
          fin_cases hd <;> omega
        · intro d hd
          fin_cases hd <;> omega
  · rw [if_neg h1]
    by_cases h2 : l.count ',' < l.count '\t'
    · rw [if_pos h2]
      by_cases h3 : l.count '\t' < l.count '|'
      · rw [if_pos h3]
        refine ⟨⟨[',', ';', '\t'], [], by decide, ?_⟩, ?_⟩
        · intro d hd
          fin_cases hd <;> omega
        · intro d hd
          fin_cases hd <;> omega
      · rw [if_neg h3]
        refine ⟨⟨[',', ';'], ['|'], by decide, ?_⟩, ?_⟩
        · intro d hd
          fin_cases hd <;> omega
        · intro d hd
          fin_cases hd <;> omega
    · rw [if_neg h2]
      by_cases h3 : l.count ',' < l.count '|'
      · rw [if_pos h3]
        refine ⟨⟨[',', ';', '\t'], [], by decide, ?_⟩, ?_⟩
        · intro d hd
          fin_cases hd <;> omega
        · intro d hd
          fin_cases hd <;> omega
      · rw [if_neg h3]
        refine ⟨⟨[], [';', '\t', '|'], by decide, ?_⟩, ?_⟩
        · intro d hd
          cases hd
        · intro d hd
          fin_cases hd <;> omega

/-! ### Lemmas for the exhausted cascade and the sparse filter -/

theorem firstNonEmpty_cons_some (df : RawTable) (rest : List (Option RawTable)) :
    firstNonEmpty (some df :: rest) =
      if !dfEmptyB df then df else firstNonEmpty rest := rfl

theorem firstNonEmpty_cons_none (rest : List (Option RawTable)) :
    firstNonEmpty (none :: rest) = firstNonEmpty rest := rfl

theorem filter_sublist_of_imp {α : Type} {p q : α → Bool}
    (h : ∀ a, q a = true → p a = true) :
    ∀ l : List α, (l.filter q).Sublist (l.filter p) := by
  intro l
  induction l with
  | nil => simp
  | cons a l ih =>
    by_cases hq : q a = true
    · rw [List.filter_cons_of_pos hq, List.filter_cons_of_pos (h a hq)]
      exact ih.cons₂ a
    · rw [List.filter_cons_of_neg (by simpa using hq)]
      by_cases hp' : p a = true
      · rw [List.filter_cons_of_pos hp']
        exact ih.cons a
      · rw [List.filter_cons_of_neg (by simpa using hp')]
        exact ih

/-! ## Claim theorems -/

/-- C1 (amended): when every strategy of the resolver is exhausted (both
pandas encoding sweeps rejected, manual and text tiers degenerate), the
resolver RETURNS the empty `pd.DataFrame()` to its caller rather than
raising — no `UnreadableFileError` exists in the code and no path raises —
and `SimpleDataCleaner._read_csv_robustly` likewise returns the empty frame
when its three strategies are exhausted. -/
theorem resolver_returns_empty_when_exhausted
    (p1 p2 : String → Option RawTable) (pT : List (List Char) → Option RawTable)
    (lines : List (List Char))
    (h1 : firstAccepted p1 acceptStrict fallbackEncodings = none)
    (h2 : firstAccepted p2 acceptSkip fallbackEncodings = none)
    (h3 : dfEmptyB (manualCsvParse lines) = true)
    (h4 : dfEmptyB (textBasedCsvParse pT lines) = true) :
    readCsvWithFallbacks p1 p2 pT lines = .ok emptyRawTable ∧
    (∀ pandas : Option RawTable,
      (∀ df, pandas = some df → dfEmptyB df = true) →
      (∀ df, tryCsvModule lines = some df → dfEmptyB df = true) →
      (∀ df, tryManualParse lines = some df → dfEmptyB df = true) →
      readCsvRobustly pandas lines = emptyRawTable) := by
  constructor
  · unfold readCsvWithFallbacks
    rw [h1]
    rw [h2]
    rw [if_neg (by rw [h3]; decide), if_neg (by rw [h4]; decide)]
  · intro pandas hp hcsv hman
    unfold readCsvRobustly
    have hstep3 : firstNonEmpty [tryManualParse lines] = emptyRawTable := by
      cases hmn : tryManualParse lines with
      | none => rfl
      | some df =>
        rw [firstNonEmpty_cons_some, if_neg (by rw [hman df hmn]; decide)]
        rfl
    have hstep2 : firstNonEmpty [tryCsvModule lines, tryManualParse lines] =
        emptyRawTable := by
      cases hcm : tryCsvModule lines with
      | none =>
        rw [firstNonEmpty_cons_none]
        exact hstep3
      | some df =>
        rw [firstNonEmpty_cons_some, if_neg (by rw [hcsv df hcm]; decide)]
        exact hstep3
    cases hpd : pandas with
    | none =>
      rw [firstNonEmpty_cons_none]
      exact hstep2
    | some df =>
      rw [firstNonEmpty_cons_some, if_neg (by rw [hp df hpd]; decide)]
      exact hstep2

/-- C1 witness: a concrete fully-failing run — all pandas parses fail and
the file is empty; the resolver returns `Except.ok` of the empty table. -/
theorem resolver_returns_empty_witness :
    firstAccepted (fun _ => none) acceptStrict fallbackEncodings = none ∧
    dfEmptyB (manualCsvParse []) = true ∧
    dfEmptyB (textBasedCsvParse (fun _ => none) []) = true ∧
    readCsvWithFallbacks (fun _ => none) (fun _ => none) (fun _ => none) [] =
      .ok emptyRawTable ∧
    readCsvRobustly none [] = emptyRawTable := by
  have h := resolver_returns_empty_when_exhausted
    (fun _ => none) (fun _ => none) (fun _ => none) []
    (by decide) (by decide) (by decide) (by decide)
  exact ⟨by decide, by decide, by decide, h.1,
    h.2 none (fun df hdf => Option.noConfusion hdf)
      (fun df hdf => Option.noConfusion hdf)
      (fun df hdf => Option.noConfusion hdf)⟩

/-- C1 counterexample: on an input where all strategies are exhausted the
resolver returns (`Except.ok`) an empty, degenerate table — it does not
raise `UnreadableFileError`, refuting both halves of the claim. -/
theorem resolver_exhaustion_counterexample :
    readCsvWithFallbacks (fun _ => none) (fun _ => none) (fun _ => none) [] =
      .ok emptyRawTable ∧
    dfEmptyB emptyRawTable = true ∧
    (∀ err : UnreadableFileError,
      readCsvWithFallbacks (fun _ => none) (fun _ => none) (fun _ => none) [] ≠
        .error err) := by
  refine ⟨rfl, by decide, ?_⟩
  intro err h
  rw [show readCsvWithFallbacks (fun _ => none) (fun _ => none) (fun _ => none) [] =
      .ok emptyRawTable from rfl] at h
  cases h

/-- C2 (amended): the missing-value stage of the active cleaner
(`SimpleDataCleaner.clean_data` step 3) ignores `handle_missing` entirely:
for EVERY options value, a numeric column with a missing cell is filled with
the column median of its present values, and a non-numeric column with a
missing cell is filled with the literal string `'Unknown'`; present cells
are unchanged. -/
theorem fill_missing_median_unknown (opts : CleaningOptions) :
    (∀ (cs : List (Option ℚ)) (m : ℚ),
      cs.any (fun x => x.isNone) = true →
      pandasMedian (cs.filterMap id) = some m →
      fillColumnStep opts (.num cs) = .num (cs.map (fun x => some (x.getD m)))) ∧
    (∀ cs : List (Option String),
      cs.any (fun x => x.isNone) = true →
      fillColumnStep opts (.text cs) =
        .text (cs.map (fun x => some (x.getD "Unknown")))) := by
  have hnum : ∀ (cs : List (Option ℚ)),
      fillColumnStep opts (.num cs) =
        if cs.any (fun x => x.isNone) then
          match pandasMedian (cs.filterMap id) with
          | some m => .num (cs.map (fun x => some (x.getD m)))
          | none => .num cs
        else .num cs := fun _ => rfl
  have htext : ∀ (cs : List (Option String)),
      fillColumnStep opts (.text cs) =
        if cs.any (fun x => x.isNone) then
          .text (cs.map (fun x => some (x.getD "Unknown")))
        else .text cs := fun _ => rfl
  constructor
  · intro cs m hmiss hmed
    rw [hnum cs, if_pos hmiss, hmed]
  · intro cs hmiss
    rw [htext cs, if_pos hmiss]

/-- C2 witness: under the default options the numeric column `[1, missing]`
is filled with the median 1 and the text column `[\"a\", missing]` with
`'Unknown'`. -/
theorem fill_missing_median_unknown_witness :
    pandasMedian ([some 1, none].filterMap id) = some 1 ∧
    fillColumnStep defaultOptions (.num [some 1, none]) = .num [some 1, some 1] ∧
    fillColumnStep defaultOptions (.text [some "a", none]) =
      .text [some "a", some "Unknown"] := by
  refine ⟨by decide, ?_, ?_⟩
  · have h := (fill_missing_median_unknown defaultOptions).1 [some 1, none] 1
      (by decide) (by decide)
    rw [h]
    decide
  · have h := (fill_missing_median_unknown defaultOptions).2 [some "a", none]
      (by decide)
    rw [h]
    decide

/-- C2 counterexample: with `handle_missing='mean'` the claim demands the
mean (4) for the numeric column `[1, 2, 9, missing]`, but the code fills the
median (2): the option is never consulted. -/
theorem fill_missing_mean_counterexample :
    fillColumnStep ⟨1/2, "mean", "drop", false⟩
        (.num [some 1, some 2, some 9, none]) =
      .num [some 1, some 2, some 9, some 2] ∧
    columnMean [1, 2, 9] = 4 ∧
    ColData.num [some 1, some 2, some 9, some 2] ≠
      .num [some 1, some 2, some 9, some (columnMean [1, 2, 9])] := by
  have h4 : columnMean [1, 2, 9] = 4 := by
    norm_num [columnMean, List.sum_cons, List.sum_nil]
  refine ⟨by decide, h4, ?_⟩
  rw [h4]
  decide

/-- C3 (amended): every RawTable the resolver returns satisfies the width
invariant — each row has exactly `len(columns)` cells (the pandas oracles,
like pandas itself, only produce rectangular frames) — but in the
manual-tokenization tier the canonical width is the MAXIMUM cell count over
all parsed rows, not the header's count: the first line, padded to that
width, becomes the columns, short rows are padded, and overflow cells are
never merged. -/
theorem resolver_width_invariant :
    (∀ (p1 p2 : String → Option RawTable)
        (pT : List (List Char) → Option RawTable)
        (lines : List (List Char)) (t : RawTable),
      (∀ e t', p1 e = some t' → t'.Rectangular) →
      (∀ e t', p2 e = some t' → t'.Rectangular) →
      (∀ cl t', pT cl = some t' → t'.Rectangular) →
      readCsvWithFallbacks p1 p2 pT lines = .ok t → t.Rectangular) ∧
    (∀ (lines : List (List Char)) (t : RawTable),
      tryManualParse lines = some t →
      t.Rectangular ∧
      t.columns.length =
        maxRowLen (((lines.map pyStrip).filter (fun l => !l.isEmpty)).map
          (fun l => (splitOn ',' l).map pyStrip))) :=
  ⟨fun p1 p2 pT lines t ha hb hc h =>
      readCsvWithFallbacks_rect p1 p2 pT lines t ha hb hc h,
   fun _ _ h => tryManualParse_spec h⟩

/-- C3 witness: the manual tier on header `a,b` and data line `1,2,3`
produces a rectangular table of width 3 (the maximum), and a fully-failing
resolver run returns the (rectangular) empty table. -/
theorem resolver_width_invariant_witness :
    tryManualParse [['a', ',', 'b'], ['1', ',', '2', ',', '3']] =
      some ⟨[['a'], ['b'], []], [[['1'], ['2'], ['3']]]⟩ ∧
    RawTable.Rectangular ⟨[['a'], ['b'], []], [[['1'], ['2'], ['3']]]⟩ ∧
    emptyRawTable.Rectangular := by
  have hparse : tryManualParse [['a', ',', 'b'], ['1', ',', '2', ',', '3']] =
      some ⟨[['a'], ['b'], []], [[['1'], ['2'], ['3']]]⟩ := by decide
  refine ⟨hparse, (resolver_width_invariant.2 _ _ hparse).1, ?_⟩
  exact resolver_width_invariant.1 (fun _ => none) (fun _ => none) (fun _ => none)
    [] emptyRawTable (fun e t' h => Option.noConfusion h)
    (fun e t' h => Option.noConfusion h) (fun cl t' h => Option.noConfusion h)
    rfl

/-- C3 counterexample: the manual tier on header `a,b` (2 fields) and data
line `1,2,3` yields THREE columns — the padded header `[\"a\", \"b\", \"\"]`
— not the claimed header width 2, and the data row stays `[\"1\", \"2\",
\"3\"]` instead of the claimed merged `[\"1\", \"2,3\"]`. -/
theorem manual_width_counterexample :
    tryManualParse [['a', ',', 'b'], ['1', ',', '2', ',', '3']] =
      some ⟨[['a'], ['b'], []], [[['1'], ['2'], ['3']]]⟩ ∧
    (splitOn ',' ['a', ',', 'b']).length = 2 ∧
    (⟨[['a'], ['b'], []], [[['1'], ['2'], ['3']]]⟩ : RawTable).columns.length = 3 ∧
    [[['1'], ['2'], ['3']]] ≠ [[['1'], ['2', ',', '3']]] :=
  ⟨by decide, by decide, by decide, by decide⟩

/-- C4 (amended): the detection routine accepts chardet's answer only above
confidence 0.7 (else UTF-8), but `read_csv_with_fallbacks` never consults
it: the structured-parse tier attempts exactly the six fixed encodings in
order and accepts the first parse with more than one column and at least
one row. -/
theorem encoding_sweep_fixed_order
    (p1 p2 : String → Option RawTable) (pT : List (List Char) → Option RawTable)
    (lines : List (List Char)) (t : RawTable) (detected : String) (conf : ℚ) :
    (7/10 < conf → detectFileEncoding detected conf = detected) ∧
    (¬(7/10 < conf) → detectFileEncoding detected conf = "utf-8") ∧
    (firstAccepted p1 acceptStrict fallbackEncodings = some t →
      readCsvWithFallbacks p1 p2 pT lines = .ok t ∧
      dfEmptyB t = false ∧ 1 < t.columns.length ∧
      ∃ l1 e l2, fallbackEncodings = l1 ++ e :: l2 ∧ p1 e = some t ∧
        ∀ e' ∈ l1, ∀ t', p1 e' = some t' → acceptStrict t' = false) := by
  refine ⟨fun h => by unfold detectFileEncoding; rw [if_pos h],
          fun h => by unfold detectFileEncoding; rw [if_neg h], ?_⟩
  intro hfa
  obtain ⟨hok, l1, e, l2, heq, hpe, hmin⟩ :=
    firstAccepted_spec p1 acceptStrict _ _ hfa
  have hok' := hok
  unfold acceptStrict at hok'
  rw [Bool.and_eq_true] at hok'
  obtain ⟨hne, hcols⟩ := hok'
  have hempty : dfEmptyB t = false := by
    cases hb : dfEmptyB t with
    | false => rfl
    | true => rw [hb] at hne; exact absurd hne (by decide)
  refine ⟨?_, hempty, of_decide_eq_true hcols, l1, e, l2, heq, hpe, hmin⟩
  unfold readCsvWithFallbacks
  rw [hfa]

/-- C4 witness: sweeping the oracle on which both utf-8 and utf-16 parse,
the tier returns the utf-8 result (the first in the fixed order), and the
detection gate passes a 0.9-confidence answer through. -/
theorem encoding_sweep_fixed_order_witness :
    detectFileEncoding "utf-16" (9/10) = "utf-16" ∧
    readCsvWithFallbacks twoEncodingOracle (fun _ => none) (fun _ => none) [] =
      .ok ⟨[['a'], ['b']], [[['1'], ['2']]]⟩ := by
  have h := encoding_sweep_fixed_order twoEncodingOracle (fun _ => none)
    (fun _ => none) [] ⟨[['a'], ['b']], [[['1'], ['2']]]⟩ "utf-16" (9/10)
  exact ⟨h.1 (by norm_num), (h.2.2 (by decide)).1⟩

/-- C4 counterexample: the detected encoding is utf-16 (confidence 0.9 >
0.7) and parsing with utf-16 succeeds acceptably, yet the tier returns the
(different) utf-8 result — so the tier does not first attempt the detected
encoding. -/
theorem detection_unused_counterexample :
    detectFileEncoding "utf-16" (9/10) = "utf-16" ∧
    twoEncodingOracle "utf-16" = some ⟨[['x'], ['y']], [[['3'], ['4']]]⟩ ∧
    acceptStrict ⟨[['x'], ['y']], [[['3'], ['4']]]⟩ = true ∧
    firstAccepted twoEncodingOracle acceptStrict fallbackEncodings =
      some ⟨[['a'], ['b']], [[['1'], ['2']]]⟩ ∧
    (⟨[['a'], ['b']], [[['1'], ['2']]]⟩ : RawTable) ≠
      ⟨[['x'], ['y']], [[['3'], ['4']]]⟩ :=
  ⟨by norm_num [detectFileEncoding], by decide, by decide, by decide, by decide⟩

/-- C5 witness (Scenario B): header `a,b,c` (2 commas) with data line
`1,2,3,4,5`: the fixed line is `1,2,\"3,4,5\"` and its quote-aware fields
are `[\"1\", \"2\", \"3,4,5\"]`. -/
theorem fixline_reconciles_witness :
    (∀ c ∈ ['1', ',', '2', ',', '3', ',', '4', ',', '5'], c ≠ '"') ∧
    2 < List.count ',' ['1', ',', '2', ',', '3', ',', '4', ',', '5'] ∧
    fixLine 2 ['1', ',', '2', ',', '3', ',', '4', ',', '5'] =
      ['1', ',', '2', ',', '"', '3', ',', '4', ',', '5', '"'] ∧
    csvFields ',' (fixLine 2 ['1', ',', '2', ',', '3', ',', '4', ',', '5']) =
      [['1'], ['2'], ['3', ',', '4', ',', '5']] := by
  refine ⟨by decide, by decide, by decide, ?_⟩
  have h := (fixline_reconciles_to_header 2
    ['1', ',', '2', ',', '3', ',', '4', ',', '5'] (by decide) (by decide)).2.1
    (by decide)
  rw [h]
  decide

/-- C5 counterexample: two inputs the pass does NOT reconcile to the
header's count.  With a delimiter-free header `a` (0 commas) the data line
`1,2` becomes `,\"1,2\"` with TWO fields instead of one; and with header
`x,y,z` (2 commas) the quoted data line `\"a,b\",c` is left unchanged (its
raw comma count matches) yet has only TWO quote-aware fields, not three. -/
theorem fixline_counterexample :
    ensureConsistentColumns [['a'], ['1', ',', '2']] =
      [['a'], [',', '"', '1', ',', '2', '"']] ∧
    (csvFields ',' [',', '"', '1', ',', '2', '"']).length = 2 ∧
    List.count ',' ['a'] + 1 = 1 ∧
    fixLine 2 ['"', 'a', ',', 'b', '"', ',', 'c'] =
      ['"', 'a', ',', 'b', '"', ',', 'c'] ∧
    (csvFields ',' ['"', 'a', ',', 'b', '"', ',', 'c']).length = 2 :=
  ⟨by decide, by decide, by decide, by decide, by decide⟩

/-- C6: handed an empty table, the cleaning engine returns immediately with
the table unchanged and a report whose only field is the error marker
`'Empty DataFrame'` (the load stage recorded no counts for an empty frame),
and raises no exception — the embedded function is total. -/
theorem empty_table_report (opts : CleaningOptions) (ts : String)
    (shape : Nat × Nat) (df : DataFrame) (h : df.isEmptyB = true) :
    cleanData opts ts shape df (loadReport df) =
      (df, [("error", ReportValue.str "Empty DataFrame")]) := by
  unfold loadReport cleanData
  rw [h]
  simp [setKey]

/-- C6 witness: the concrete empty frame. -/
theorem empty_table_report_witness :
    DataFrame.isEmptyB ⟨[]⟩ = true ∧
    cleanData defaultOptions "2024-01-01T00:00:00" (0, 0) ⟨[]⟩
        (loadReport ⟨[]⟩) =
      (⟨[]⟩, [("error", ReportValue.str "Empty DataFrame")]) :=
  ⟨by decide,
   empty_table_report defaultOptions "2024-01-01T00:00:00" (0, 0) ⟨[]⟩ (by decide)⟩

/-- C7: temp-file lifecycle.  `smart_read_csv` deletes its `fix_csv_issues`
temp file on the success path of the fixed re-read, but when that re-read
also fails the `except` branch runs the manual fallback and one temp file
remains on disk; the upload route likewise leaves its repaired temp file
when processing raises after creating it. -/
theorem temp_file_cleanup_paths :
    (∀ (df : RawTable) (fr : Option RawTable) (m : RawTable),
      smartReadCsv (some df) fr m = (df, 0)) ∧
    (∀ (df m : RawTable), smartReadCsv none (some df) m = (df, 0)) ∧
    (∀ m : RawTable, smartReadCsv none none m = (m, 1)) ∧
    indexTempsLeft true true = 1 ∧ indexTempsLeft true false = 0 :=
  ⟨fun _ _ _ => rfl, fun _ _ => rfl, fun _ => rfl, rfl, rfl⟩

/-- C8: sparse-column elimination is monotone in the threshold: for
`t1 ≤ t2` in `[0, 1]`, every column dropped at threshold `t2` is also
dropped at `t1` (a column is dropped exactly when its missing fraction
strictly exceeds the threshold), so raising the threshold never increases
the number of columns dropped. -/
theorem sparse_drop_monotone (df : DataFrame) (t1 t2 : ℚ)
    (h0 : 0 ≤ t1) (h12 : t1 ≤ t2) (h1 : t2 ≤ 1) :
    (∀ name ∈ colsToDrop t2 df, name ∈ colsToDrop t1 df) ∧
    (colsToDrop t2 df).length ≤ (colsToDrop t1 df).length := by
  unfold colsToDrop
  by_cases ht2 : t2 < 1
  · have ht1 : t1 < 1 := lt_of_le_of_lt h12 ht2
    rw [if_pos ht2, if_pos ht1]
    have himp : ∀ p : String × ColData,
        decide (t2 < missingFrac df.nrows p.2) = true →
        decide (t1 < missingFrac df.nrows p.2) = true := by
      intro p hp
      rw [decide_eq_true_eq] at hp ⊢
      exact lt_of_le_of_lt h12 hp
    have hsub := (filter_sublist_of_imp himp df.cols).map (fun p => p.1)
    exact ⟨fun name hn => hsub.subset hn, hsub.length_le⟩
  · rw [if_neg ht2]
    exact ⟨fun name hn => absurd hn (List.not_mem_nil name), by simp⟩

/-- C8 witness: thresholds 1/4 ≤ 1/2 on the sample frame. -/
theorem sparse_drop_monotone_witness :
    (0 : ℚ) ≤ 1/4 ∧ (1/4 : ℚ) ≤ 1/2 ∧ (1/2 : ℚ) ≤ 1 ∧
    ((∀ name ∈ colsToDrop (1/2) sampleFrame, name ∈ colsToDrop (1/4) sampleFrame) ∧
     (colsToDrop (1/2) sampleFrame).length ≤ (colsToDrop (1/4) sampleFrame).length) :=
  ⟨by norm_num, by norm_num, by norm_num,
   sparse_drop_monotone sampleFrame (1/4) (1/2) (by norm_num) (by norm_num)
     (by norm_num)⟩

/-- C10: delimiter selection returns the earliest candidate (in the fixed
order comma, semicolon, tab, pipe) attaining the maximum count in the first
line — a delimiter-free first line yields comma — and the csv-module tier
tokenizes every line of the file with exactly that delimiter. -/
theorem delimiter_selection_first_max (line : List Char) :
    (∃ l1 l2, candidateDelims = l1 ++ selectDelimiter line :: l2 ∧
      ∀ d ∈ l1, line.count d < line.count (selectDelimiter line)) ∧
    (∀ d ∈ candidateDelims, line.count d ≤ line.count (selectDelimiter line)) ∧
    ((∀ d ∈ candidateDelims, line.count d = 0) → selectDelimiter line = ',') ∧
    (∀ (rest : List (List Char)) (t : RawTable),
      tryCsvModule (line :: rest) = some t →
      t.columns = csvFields (selectDelimiter line) line ∧
      t.rows = rest.map (fun l => csvFields (selectDelimiter line) l)) := by
  obtain ⟨⟨l1, l2, hdecomp, hlt⟩, hmax⟩ := selectDelimiter_spec line
  refine ⟨⟨l1, l2, hdecomp, hlt⟩, hmax, ?_, ?_⟩
  · intro hzero
    have hsel_mem : selectDelimiter line ∈ candidateDelims := by
      rw [hdecomp]
      exact List.mem_append_right _ (List.mem_cons_self _ _)
    cases l1 with
    | nil =>
      rw [show candidateDelims = [',', ';', '\t', '|'] from rfl,
          List.nil_append] at hdecomp
      injection hdecomp with hh _
      exact hh.symm
    | cons a l1' =>
      exfalso
      have ha : a ∈ candidateDelims := by
        rw [hdecomp]
        exact List.mem_append_left _ (List.mem_cons_self _ _)
      have h1 := hzero a ha
      have h2 := hzero _ hsel_mem
      have h3 := hlt a (List.mem_cons_self _ _)
      omega
  · intro rest t h
    have hcons : tryCsvModule (line :: rest) =
        (if 1 < ((line :: rest).map
              (fun l => csvFields (selectDelimiter line) l)).length
         then pdDataFrame
           (((line :: rest).map (fun l => csvFields (selectDelimiter line) l)).headD [])
           (((line :: rest).map (fun l => csvFields (selectDelimiter line) l)).tail)
         else none) := rfl
    rw [hcons] at h
    by_cases hlen :
        1 < ((line :: rest).map (fun l => csvFields (selectDelimiter line) l)).length
    · rw [if_pos hlen] at h
      unfold pdDataFrame at h
      split at h
      · injection h with h'
        subst h'
        constructor
        · rfl
        · rfl
      · cases h
    · rw [if_neg hlen] at h
      cases h

/-- C10 witness: a delimiter-free first line `x` selects the comma, and the
csv-module tier tokenizes the whole file with it. -/
theorem delimiter_selection_witness :
    selectDelimiter ['x'] = ',' ∧
    tryCsvModule [['x'], ['y']] = some ⟨[['x']], [[['y']]]⟩ ∧
    (⟨[['x']], [[['y']]]⟩ : RawTable).columns =
      csvFields (selectDelimiter ['x']) ['x'] ∧
    (⟨[['x']], [[['y']]]⟩ : RawTable).rows =
      [['y']].map (fun l => csvFields (selectDelimiter ['x']) l) := by
  have h := delimiter_selection_first_max ['x']
  have htok := h.2.2.2 [['y']] ⟨[['x']], [[['y']]]⟩ (by decide)
  exact ⟨h.2.2.1 (by decide), by decide, htok.1, htok.2⟩

end DataCleanerApp
